import Mathlib

/-!
# schema-validator-action: schema resolution, caching and the validating walk

A shallow embedding of `src/main.go`.  The program keeps four package-level
variables (`compiledSchema`, `cachedSchemas`, `schemaErrors`, `hadError`); they
become the fields of `State`, which every function takes and returns.

Collaborators that live outside the repository are inputs of the model:

* the file system together with `encoding/json` (`FS`): what `os.Open` followed
  by `Decoder.Decode` yields for a path;
* the schema engine (`Engine`): `jsonschema.Compile` and `(*Schema).Validate`;
* viper (`Config`): the values of `FAIL_FAST` and `REQUIRE_SCHEMAS`;
* `filepath.WalkDir`: the sequence of entries it visits, see `walk`.

`State.trace` is ghost state: the calls made to `loadSchema`, its cache hits,
the calls to `jsonschema.Compile` and to `Validate`, most recent first.  The code does not
read it; the theorems use it to say which calls happened.
-/

namespace SchemaValidator

/-! ## Data model -/

/-- A decoded JSON value as `encoding/json` produces it with `UseNumber`:
`nil`, `bool`, `json.Number` (the literal text), `string`, `[]interface{}`,
`map[string]interface{}`. -/
inductive JVal where
  | null
  | bool (b : Bool)
  | num (lit : String)
  | str (s : String)
  | arr (xs : List JVal)
  | obj (kvs : List (String × JVal))

/-- A Go `map[string]T` as an association list; the first binding of a key is
the one that counts. -/
abbrev GoMap (β : Type) := List (String × β)

/-- The Go expression `m[k]` in its two-value form `v, ok := m[k]`. -/
def mapGet {β : Type} : GoMap β → String → Option β
  | [], _ => none
  | (k', v) :: m, k => if k' = k then some v else mapGet m k

/-- The map without its bindings of `k`. -/
def mapDelete {β : Type} : GoMap β → String → GoMap β
  | [], _ => []
  | (k', v) :: m, k => if k' = k then mapDelete m k else (k', v) :: mapDelete m k

/-- The Go statement `m[k] = v`: the binding of `k` is replaced or added. -/
def mapSet {β : Type} (m : GoMap β) (k : String) (v : β) : GoMap β :=
  (k, v) :: mapDelete m k

/-- The keys of a map. -/
def mapKeys {β : Type} (m : GoMap β) : List String := m.map Prod.fst

/-- The decoded top-level value `v` of `validate`: a `map[string]interface{}`. -/
abbrev Doc := GoMap JVal

/-- A compiled schema, `*jsonschema.Schema`: the pointer value. -/
structure Schema where
  ptr : Nat
deriving DecidableEq, Repr

/-- The non-nil `error` values `validate` and `loadSchema` build, one
constructor for each `fmt.Errorf` in the source. -/
inductive GoError where
  /-- From `"Error opening file: %v\n"`, when `os.Open` fails. -/
  | openFile (cause : String)
  /-- From `"Syntax error: %v\n"`, when `Decode` fails. -/
  | decode (cause : String)
  /-- From `"empty schema declaration found in %s and requireSchema is set"`. -/
  | emptyDeclaration (jsonFile : String)
  /-- From `"no schema reference found in %s and requireSchema is set"`. -/
  | missingDeclaration (jsonFile : String)
  /-- From `"unable to load declared schema: %v\n"`, when `Compile` fails. -/
  | loadFailed (cause : String)
  /-- From `fmt.Errorf(string(b))`, `b` the indented JSON of `ve.DetailedOutput()`. -/
  | validation (detail : String)
deriving DecidableEq, Repr

/-- What `currentSchema.Validate(v)` returns: `nil`, a `*ValidationError`
(carried here as the indented JSON of its detailed output), or an error of
another type (the engine also returns `InfiniteLoopError` and
`InvalidJSONTypeError`). -/
inductive ValidateResult where
  | ok
  | validationError (detail : String)
  | otherError (msg : String)
deriving DecidableEq, Repr

/-- What opening and decoding a file yields. -/
inductive FileRead where
  | openError (cause : String)
  | decodeError (cause : String)
  | parsed (v : Doc)

/-- The file system seen through `os.Open` and `Decoder.Decode`. -/
abbrev FS := String → FileRead

/-- What the run did, recorded in `State.trace`: `loadSchema` was entered; it
found the identifier in `cachedSchemas` and returned the stored schema;
it invoked `jsonschema.Compile`, which returned `result`; `Validate` was
invoked on a schema and a document. -/
inductive Event where
  | loadSchemaCall (declaredSchema : String)
  | cacheHit (declaredSchema : String) (schema : Schema)
  | compileCall (declaredSchema : String) (result : Except String Schema)
  | validateCall (schema : Schema) (v : Doc)

/-- The schema engine.  `compile` is `jsonschema.Compile`: it reads files and
the network, so its answer may differ from one invocation to the next; it is
given the trace of the run up to the call of `loadSchema` that invokes it.
`validate` is `(*Schema).Validate`. -/
structure Engine where
  compile : List Event → String → Except String Schema
  validate : Schema → Doc → ValidateResult

/-- The engine answers `Compile` the same way whenever it is asked. -/
def Engine.Deterministic (eng : Engine) : Prop :=
  ∀ (t₁ t₂ : List Event) (S : String), eng.compile t₁ S = eng.compile t₂ S

/-- The viper options the walk reads. -/
structure Config where
  failFast : Bool
  requireSchemas : Bool
deriving DecidableEq, Repr

/-- The package-level variables, and the ghost trace. -/
structure State where
  compiledSchema : Option Schema
  cachedSchemas : GoMap Schema
  schemaErrors : GoMap (Option GoError)
  hadError : Bool
  trace : List Event

/-- The state when `filepath.WalkDir` is called: `forced` is what `main` put
in `compiledSchema`. -/
def State.init (forced : Option Schema) : State :=
  { compiledSchema := forced, cachedSchemas := [], schemaErrors := [],
    hadError := false, trace := [] }

/-! ## `fmt.Sprintf("%v", val)` -/

/-- Insert a rendered member into a list sorted by key (Go compares strings
byte by byte, which on UTF-8 is the order of the characters); an equal key is
replaced. -/
def insertMember (k : String) (r : String) : List (String × String) → List (String × String)
  | [] => [(k, r)]
  | (k', r') :: rest =>
      if k.data < k'.data then (k, r) :: (k', r') :: rest
      else if k = k' then (k, r) :: rest
      else (k', r') :: insertMember k r rest

/-- The members in the order `fmt` prints a map: sorted by key, one per key
(the first binding). -/
def sortMembers (ms : List (String × String)) : List (String × String) :=
  ms.foldr (fun p acc => insertMember p.1 p.2 acc) []

mutual
/-- The verb `%v` applied to a decoded JSON value. -/
def sprintV : JVal → String
  | .null => "<nil>"
  | .bool b => if b then "true" else "false"
  | .num lit => lit
  | .str s => s
  | .arr xs => "[" ++ " ".intercalate (sprintList xs) ++ "]"
  | .obj kvs =>
      "map[" ++ " ".intercalate ((sortMembers (sprintMembers kvs)).map
        (fun p => p.1 ++ ":" ++ p.2)) ++ "]"
/-- The elements of a slice, each under `%v`. -/
def sprintList : List JVal → List String
  | [] => []
  | x :: xs => sprintV x :: sprintList xs
/-- The members of a map, each value under `%v`. -/
def sprintMembers : List (String × JVal) → List (String × String)
  | [] => []
  | (k, v) :: kvs => (k, sprintV v) :: sprintMembers kvs
end

/-- The Go function `strings.HasSuffix`. -/
def hasSuffix (s suffix : String) : Bool :=
  suffix.data.isSuffixOf s.data

/-! ## The program -/

/-- The function `loadSchema` of `main.go`. -/
def loadSchema (eng : Engine) (declaredSchema : String) (s : State) :
    Except GoError Schema × State :=
  match mapGet s.cachedSchemas declaredSchema with
  | some schema =>
      (.ok schema,
        { s with trace :=
            .cacheHit declaredSchema schema :: .loadSchemaCall declaredSchema :: s.trace })
  | none =>
    match eng.compile s.trace declaredSchema with
    | .error cause =>
        (.error (.loadFailed cause),
          { s with trace :=
              .compileCall declaredSchema (.error cause) ::
                .loadSchemaCall declaredSchema :: s.trace })
    | .ok schema =>
        (.ok schema,
          { s with
            cachedSchemas := mapSet s.cachedSchemas declaredSchema schema
            trace :=
              .compileCall declaredSchema (.ok schema) ::
                .loadSchemaCall declaredSchema :: s.trace })

/-- The tail of `validate`: `currentSchema.Validate(v)` and the type assertion
on its result. -/
def runValidate (eng : Engine) (currentSchema : Schema) (v : Doc) (s : State) :
    Option GoError × State :=
  let s1 := { s with trace := .validateCall currentSchema v :: s.trace }
  match eng.validate currentSchema v with
  | .validationError detail => (some (.validation detail), s1)
  | _ => (none, s1)

/-- The function `validate` of `main.go`: the outcome for one file (`none` is
Go's `nil`) and the state afterwards. -/
def validate (cfg : Config) (eng : Engine) (fs : FS) (jsonFile : String) (s : State) :
    Option GoError × State :=
  match fs jsonFile with
  | .openError cause => (some (.openFile cause), s)
  | .decodeError cause => (some (.decode cause), s)
  | .parsed v =>
    match s.compiledSchema with
    | some forced => runValidate eng forced v s
    | none =>
      match mapGet v "$schema" with
      | some val =>
        let declaredSchema := sprintV val
        if declaredSchema ≠ "" then
          match loadSchema eng declaredSchema s with
          | (.error err, s1) => (some err, s1)
          | (.ok currentSchema, s1) => runValidate eng currentSchema v s1
        else if cfg.requireSchemas then (some (.emptyDeclaration jsonFile), s)
        else (none, s)
      | none =>
        if cfg.requireSchemas then (some (.missingDeclaration jsonFile), s)
        else (none, s)

/-- An entry handed to the walk function: the path and the `fs.DirEntry`
(`none` is a nil `DirEntry`, otherwise the value of `IsDir()`). -/
structure Entry where
  path : String
  dir : Option Bool
deriving DecidableEq, Repr

/-- The entry is one `walkValidate` validates: not a directory, and the path
ends in `.json` or `.geojson`. -/
def Entry.candidate (e : Entry) : Bool :=
  !(e.dir == some true) && (hasSuffix e.path ".json" || hasSuffix e.path ".geojson")

/-- The function `walkValidate` of `main.go`: the returned error and the state
afterwards. -/
def walkValidate (cfg : Config) (eng : Engine) (fs : FS) (e : Entry) (s : State) :
    Option GoError × State :=
  if e.dir = some true then (none, s)
  else if hasSuffix e.path ".json" || hasSuffix e.path ".geojson" then
    match validate cfg eng fs e.path s with
    | (err, s1) =>
      let s2 := { s1 with schemaErrors := mapSet s1.schemaErrors e.path err }
      match err with
      | some x =>
        let s3 := { s2 with hadError := true }
        if cfg.failFast then (some x, s3) else (none, s3)
      | none => (none, s2)
  else (none, s)

/-- The call `filepath.WalkDir(dir, walkValidate)` over the entries in the
order the walk visits them: the function is applied to each in turn, and the
first non-nil error it returns ends the walk and is the walk's result.
`WalkDir` calls the function once for each file of the tree, so the paths of
the files among the entries are pairwise distinct. -/
def walk (cfg : Config) (eng : Engine) (fs : FS) : List Entry → State → Option GoError × State
  | [], s => (none, s)
  | e :: es, s =>
    match walkValidate cfg eng fs e s with
    | (some err, s1) => (some err, s1)
    | (none, s1) => walk cfg eng fs es s1

/-- The exit status `main` ends with after the walk. -/
def exitStatus (s : State) : Nat := if s.hadError then 1 else 0

/-! ## Reading the trace -/

/-- The identifiers `loadSchema` was called with, most recent first. -/
def loadCalls : List Event → List String
  | [] => []
  | .loadSchemaCall S :: t => S :: loadCalls t
  | _ :: t => loadCalls t

/-- The identifiers `jsonschema.Compile` was invoked on, most recent first. -/
def compileCalls : List Event → List String
  | [] => []
  | .compileCall S _ :: t => S :: compileCalls t
  | _ :: t => compileCalls t

/-- The schemas `Validate` was invoked on, most recent first. -/
def validateCalls : List Event → List Schema
  | [] => []
  | .validateCall c _ :: t => c :: validateCalls t
  | _ :: t => validateCalls t

/-- What one call of `loadSchema` did: `Compile` failed, `Compile` returned a
schema that was then stored, or the schema was found in the cache. -/
inductive LoadKind where
  | failed
  | compiled (schema : Schema)
  | hit (schema : Schema)
deriving DecidableEq, Repr

/-- What the calls of `loadSchema` with the identifier `S` did, oldest first. -/
def history (S : String) : List Event → List LoadKind
  | [] => []
  | .cacheHit S' c :: t => if S' = S then history S t ++ [.hit c] else history S t
  | .compileCall S' (.ok c) :: t =>
      if S' = S then history S t ++ [.compiled c] else history S t
  | .compileCall S' (.error _) :: t =>
      if S' = S then history S t ++ [.failed] else history S t
  | _ :: t => history S t

/-- A sequence of `loadSchema` calls, one for each identifier in turn: the
results in order and the state afterwards. -/
def loadSchemas (eng : Engine) : List String → State → List (Except GoError Schema) × State
  | [], s => ([], s)
  | S :: ids, s =>
      ((loadSchema eng S s).1 :: (loadSchemas eng ids (loadSchema eng S s).2).1,
        (loadSchemas eng ids (loadSchema eng S s).2).2)

/-- The cache and the trace agree on the identifier `S` after `n` calls of
`loadSchema` with it: either `S` is not cached and all `n` calls failed, or
`S` is cached as `c` and the calls were some failures, then the `Compile` that
returned `c`, then cache hits returning `c`.  A failure in the trace is an
answer the engine gave, and so is `c`. -/
def CacheInv (eng : Engine) (S : String) (s : State) (n : Nat) : Prop :=
  (mapGet s.cachedSchemas S = none ∧ history S s.trace = List.replicate n .failed ∧
    (0 < n → ∃ t cause, eng.compile t S = .error cause)) ∨
  (∃ f h c, mapGet s.cachedSchemas S = some c ∧
    history S s.trace = List.replicate f .failed ++ .compiled c :: List.replicate h (.hit c) ∧
    f + 1 + h = n ∧ (0 < f → ∃ t cause, eng.compile t S = .error cause) ∧
    ∃ t, eng.compile t S = .ok c)

/-- The paths of the entries that `walkValidate` validates, in order. -/
def candidatePaths (es : List Entry) : List String :=
  (es.filter Entry.candidate).map Entry.path

/-! ## Concrete collaborators, used to instantiate the theorems -/

/-- A document declaring `schema.json`, with a string under `name`. -/
def docA : Doc := [("$schema", .str "schema.json"), ("name", .str "x")]

/-- A document declaring `schema.json`, with a number under `name`. -/
def docB : Doc := [("$schema", .str "schema.json"), ("name", .num "5")]

/-- A document without a `$schema` member. -/
def docC : Doc := [("name", .str "x")]

/-- A document whose `$schema` is a single space. -/
def docBlank : Doc := [("$schema", .str " ")]

/-- A document whose `$schema` is the empty string. -/
def docEmpty : Doc := [("$schema", .str "")]

/-- A document whose `$schema` is `null`. -/
def docNull : Doc := [("$schema", .null)]

/-- A small workspace: six documents, a file that is not JSON, and nothing else. -/
def demoFS : FS := fun path =>
  if path = "a.json" then .parsed docA
  else if path = "b.json" then .parsed docB
  else if path = "c.json" then .parsed docC
  else if path = "blank.json" then .parsed docBlank
  else if path = "empty.json" then .parsed docEmpty
  else if path = "null.json" then .parsed docNull
  else if path = "bad.json" then .decodeError "unexpected end of JSON input"
  else .openError "no such file or directory"

/-- A `Validate` that accepts a document when its `name` is a string, and
reports an error of another type when `name` is missing. -/
def demoValidate (_ : Schema) (v : Doc) : ValidateResult :=
  match mapGet v "name" with
  | some (.str _) => .ok
  | some _ => .validationError "name: expected string"
  | none => .otherError "infinite loop"

/-- An engine that always compiles `schema.json` to the same schema and fails
on every other identifier. -/
def steadyEngine : Engine where
  compile := fun _ S => if S = "schema.json" then .ok ⟨1⟩ else .error "not found"
  validate := demoValidate

/-- An engine whose first `Compile` of the run fails and whose later ones
succeed: a fetch that times out once. -/
def flakyEngine : Engine where
  compile := fun t _ => if compileCalls t = [] then .error "timeout" else .ok ⟨1⟩
  validate := demoValidate

/-! ## Maps -/


theorem mapGet_mapDelete_ne {β : Type} (m : GoMap β) (k k' : String) (h : k' ≠ k) :
    mapGet (mapDelete m k) k' = mapGet m k' := by
  induction m with
  | nil => rfl
  | cons p m ih =>
    obtain ⟨a, b⟩ := p
    by_cases hak : a = k
    · subst hak
      have : ¬ a = k' := fun h' => h h'.symm
      simp [mapDelete, mapGet, this, ih]
    · by_cases hak' : a = k'
      · subst hak'
        simp [mapDelete, mapGet, hak]
      · simp [mapDelete, mapGet, hak, hak', ih]

theorem mapGet_mapSet_self {β : Type} (m : GoMap β) (k : String) (v : β) :
    mapGet (mapSet m k v) k = some v := by
  simp [mapSet, mapGet]

theorem mapGet_mapSet_ne {β : Type} (m : GoMap β) (k k' : String) (v : β) (h : k' ≠ k) :
    mapGet (mapSet m k v) k' = mapGet m k' := by
  have hk : ¬ k = k' := fun h' => h h'.symm
  simp [mapSet, mapGet, hk, mapGet_mapDelete_ne m k k' h]

theorem mem_mapKeys_mapDelete {β : Type} (m : GoMap β) (k p : String) :
    p ∈ mapKeys (mapDelete m k) ↔ p ≠ k ∧ p ∈ mapKeys m := by
  induction m with
  | nil => simp [mapKeys, mapDelete]
  | cons q m ih =>
    obtain ⟨a, b⟩ := q
    simp only [mapKeys] at ih
    by_cases hak : a = k
    · subst hak
      simp only [mapDelete, if_true, mapKeys, List.map_cons, List.mem_cons, ih]
      constructor
      · rintro ⟨h1, h2⟩; exact ⟨h1, Or.inr h2⟩
      · rintro ⟨h1, h2 | h2⟩
        · exact absurd h2 h1
        · exact ⟨h1, h2⟩
    · simp only [mapDelete, hak, if_false, mapKeys, List.map_cons, List.mem_cons, ih]
      constructor
      · rintro (h | ⟨h1, h2⟩)
        · exact ⟨by rw [h]; exact hak, Or.inl h⟩
        · exact ⟨h1, Or.inr h2⟩
      · rintro ⟨h1, h2 | h2⟩
        · exact Or.inl h2
        · exact Or.inr ⟨h1, h2⟩

theorem mem_mapKeys_mapSet {β : Type} (m : GoMap β) (k p : String) (v : β) :
    p ∈ mapKeys (mapSet m k v) ↔ p = k ∨ p ∈ mapKeys m := by
  have h := mem_mapKeys_mapDelete m k p
  simp only [mapKeys] at h
  simp only [mapKeys, mapSet, List.map_cons, List.mem_cons, h]
  by_cases hk : p = k
  · simp [hk]
  · simp [hk]

/-! ## What `loadSchema` and `validate` leave alone -/

theorem loadSchema_frame (eng : Engine) (S : String) (s : State) :
    (loadSchema eng S s).2.compiledSchema = s.compiledSchema ∧
    (loadSchema eng S s).2.schemaErrors = s.schemaErrors ∧
    (loadSchema eng S s).2.hadError = s.hadError := by
  unfold loadSchema
  cases mapGet s.cachedSchemas S with
  | some c => exact ⟨rfl, rfl, rfl⟩
  | none =>
    cases eng.compile s.trace S with
    | error cause => exact ⟨rfl, rfl, rfl⟩
    | ok c => exact ⟨rfl, rfl, rfl⟩

theorem loadSchema_loadCalls (eng : Engine) (S : String) (s : State) :
    loadCalls (loadSchema eng S s).2.trace = S :: loadCalls s.trace := by
  unfold loadSchema
  cases mapGet s.cachedSchemas S with
  | some c => rfl
  | none =>
    cases eng.compile s.trace S with
    | error cause => rfl
    | ok c => rfl

theorem loadSchema_validateCalls (eng : Engine) (S : String) (s : State) :
    validateCalls (loadSchema eng S s).2.trace = validateCalls s.trace := by
  unfold loadSchema
  cases mapGet s.cachedSchemas S with
  | some c => rfl
  | none =>
    cases eng.compile s.trace S with
    | error cause => rfl
    | ok c => rfl

theorem runValidate_frame (eng : Engine) (c : Schema) (v : Doc) (s : State) :
    (runValidate eng c v s).2 = { s with trace := .validateCall c v :: s.trace } := by
  unfold runValidate
  cases eng.validate c v <;> rfl

theorem runValidate_outcome (eng : Engine) (c : Schema) (v : Doc) (s : State) :
    (runValidate eng c v s).1 =
      match eng.validate c v with
      | .validationError detail => some (.validation detail)
      | _ => none := by
  unfold runValidate
  cases eng.validate c v <;> rfl

theorem validate_openError (cfg : Config) (eng : Engine) (fs : FS) (f : String) (s : State)
    (cause : String) (hdoc : fs f = .openError cause) :
    validate cfg eng fs f s = (some (.openFile cause), s) := by
  unfold validate; rw [hdoc]

theorem validate_decodeError (cfg : Config) (eng : Engine) (fs : FS) (f : String) (s : State)
    (cause : String) (hdoc : fs f = .decodeError cause) :
    validate cfg eng fs f s = (some (.decode cause), s) := by
  unfold validate; rw [hdoc]

theorem validate_forced (cfg : Config) (eng : Engine) (fs : FS) (f : String) (s : State)
    (v : Doc) (forced : Schema) (hdoc : fs f = .parsed v)
    (hforced : s.compiledSchema = some forced) :
    validate cfg eng fs f s = runValidate eng forced v s := by
  unfold validate; rw [hdoc]; simp only [hforced]

theorem validate_missing (cfg : Config) (eng : Engine) (fs : FS) (f : String) (s : State)
    (v : Doc) (hdoc : fs f = .parsed v) (hnone : s.compiledSchema = none)
    (hkey : mapGet v "$schema" = none) :
    validate cfg eng fs f s =
      (if cfg.requireSchemas then some (.missingDeclaration f) else none, s) := by
  unfold validate; rw [hdoc]; simp only [hnone, hkey]
  cases cfg.requireSchemas <;> rfl

theorem validate_empty (cfg : Config) (eng : Engine) (fs : FS) (f : String) (s : State)
    (v : Doc) (val : JVal) (hdoc : fs f = .parsed v) (hnone : s.compiledSchema = none)
    (hkey : mapGet v "$schema" = some val) (hempty : sprintV val = "") :
    validate cfg eng fs f s =
      (if cfg.requireSchemas then some (.emptyDeclaration f) else none, s) := by
  unfold validate; rw [hdoc]; simp only [hnone, hkey, hempty, ne_eq, not_true_eq_false, if_false]
  cases cfg.requireSchemas <;> rfl

theorem validate_declared (cfg : Config) (eng : Engine) (fs : FS) (f : String) (s : State)
    (v : Doc) (val : JVal) (hdoc : fs f = .parsed v) (hnone : s.compiledSchema = none)
    (hkey : mapGet v "$schema" = some val) (hne : sprintV val ≠ "") :
    validate cfg eng fs f s =
      match loadSchema eng (sprintV val) s with
      | (.error err, s1) => (some err, s1)
      | (.ok currentSchema, s1) => runValidate eng currentSchema v s1 := by
  unfold validate; rw [hdoc]; simp only [hnone, hkey, hne, ne_eq, not_false_eq_true, if_true]

theorem validate_frame (cfg : Config) (eng : Engine) (fs : FS) (f : String) (s : State) :
    (validate cfg eng fs f s).2.compiledSchema = s.compiledSchema ∧
    (validate cfg eng fs f s).2.schemaErrors = s.schemaErrors ∧
    (validate cfg eng fs f s).2.hadError = s.hadError := by
  rcases hdoc : fs f with cause | cause | v
  · rw [validate_openError cfg eng fs f s cause hdoc]; exact ⟨rfl, rfl, rfl⟩
  · rw [validate_decodeError cfg eng fs f s cause hdoc]; exact ⟨rfl, rfl, rfl⟩
  · rcases hs : s.compiledSchema with _ | forced
    · rcases hkey : mapGet v "$schema" with _ | val
      · rw [validate_missing cfg eng fs f s v hdoc hs hkey]; exact ⟨hs, rfl, rfl⟩
      · by_cases hne : sprintV val = ""
        · rw [validate_empty cfg eng fs f s v val hdoc hs hkey hne]; exact ⟨hs, rfl, rfl⟩
        · rw [validate_declared cfg eng fs f s v val hdoc hs hkey hne]
          have hl := loadSchema_frame eng (sprintV val) s
          rw [hs] at hl
          rcases hr : loadSchema eng (sprintV val) s with ⟨res, s1⟩
          rw [hr] at hl
          cases res with
          | error err => exact hl
          | ok c => simp only [runValidate_frame]; exact hl
    · rw [validate_forced cfg eng fs f s v forced hdoc hs, runValidate_frame]
      exact ⟨hs, rfl, rfl⟩

/-! ## One step of the walk -/

theorem walkValidate_skip (cfg : Config) (eng : Engine) (fs : FS) (e : Entry) (s : State)
    (hc : e.candidate = false) : walkValidate cfg eng fs e s = (none, s) := by
  unfold walkValidate
  unfold Entry.candidate at hc
  by_cases hd : e.dir = some true
  · simp [hd]
  · simp only [hd, if_false]
    have : (hasSuffix e.path ".json" || hasSuffix e.path ".geojson") = false := by
      simpa [hd] using hc
    simp [this]

theorem walkValidate_candidate (cfg : Config) (eng : Engine) (fs : FS) (e : Entry) (s : State)
    (hc : e.candidate = true) :
    walkValidate cfg eng fs e s =
      match (validate cfg eng fs e.path s).1 with
      | some x =>
          (if cfg.failFast then some x else none,
            { (validate cfg eng fs e.path s).2 with
              schemaErrors := mapSet (validate cfg eng fs e.path s).2.schemaErrors e.path (some x)
              hadError := true })
      | none =>
          (none,
            { (validate cfg eng fs e.path s).2 with
              schemaErrors := mapSet (validate cfg eng fs e.path s).2.schemaErrors e.path none }) := by
  unfold walkValidate
  unfold Entry.candidate at hc
  have hd : ¬ e.dir = some true := by
    intro h; simp [h] at hc
  have hs : (hasSuffix e.path ".json" || hasSuffix e.path ".geojson") = true := by
    simpa [hd] using hc
  simp only [hd, if_false, hs, if_true]
  rcases validate cfg eng fs e.path s with ⟨err, s1⟩
  cases err with
  | none => rfl
  | some x => cases cfg.failFast <;> rfl

theorem walkValidate_hadError (cfg : Config) (eng : Engine) (fs : FS) (e : Entry) (s : State) :
    (walkValidate cfg eng fs e s).2.hadError =
      (s.hadError || (e.candidate && (validate cfg eng fs e.path s).1.isSome)) := by
  cases hc : e.candidate with
  | false => rw [walkValidate_skip cfg eng fs e s hc]; simp
  | true =>
    rw [walkValidate_candidate cfg eng fs e s hc]
    have hf := (validate_frame cfg eng fs e.path s).2.2
    cases hv : (validate cfg eng fs e.path s).1 with
    | none => simp [hf]
    | some x => simp

theorem walk_hadError_mono (cfg : Config) (eng : Engine) (fs : FS) (es : List Entry) :
    ∀ s : State, s.hadError = true → (walk cfg eng fs es s).2.hadError = true := by
  induction es with
  | nil => intro s h; exact h
  | cons e es ih =>
    intro s h
    have h1 : (walkValidate cfg eng fs e s).2.hadError = true := by
      rw [walkValidate_hadError, h]; rfl
    unfold walk
    rcases hw : walkValidate cfg eng fs e s with ⟨r, s1⟩
    rw [hw] at h1
    cases r with
    | none => exact ih s1 h1
    | some err => exact h1

/-! ## The forced schema -/

/-- C1: when `compiledSchema` is set, `validate` on a parsed document runs
`Validate` on the forced schema and on nothing else, for every value of
`REQUIRE_SCHEMAS` and every document (whatever its `$schema`): `loadSchema`
and `jsonschema.Compile` are not called, `cachedSchemas` is unchanged, the
outcome is what the forced schema's `Validate` gives, and so is never a
missing- or empty-declaration error. -/
theorem forced_schema_governs (cfg : Config) (eng : Engine) (fs : FS) (jsonFile : String)
    (s : State) (forced : Schema) (v : Doc)
    (hforced : s.compiledSchema = some forced) (hdoc : fs jsonFile = .parsed v) :
    (validate cfg eng fs jsonFile s).2.trace = .validateCall forced v :: s.trace ∧
    validateCalls (validate cfg eng fs jsonFile s).2.trace = forced :: validateCalls s.trace ∧
    loadCalls (validate cfg eng fs jsonFile s).2.trace = loadCalls s.trace ∧
    compileCalls (validate cfg eng fs jsonFile s).2.trace = compileCalls s.trace ∧
    (validate cfg eng fs jsonFile s).2.cachedSchemas = s.cachedSchemas ∧
    (validate cfg eng fs jsonFile s).1 =
      (match eng.validate forced v with
       | .validationError detail => some (.validation detail)
       | _ => none) ∧
    (∀ f : String, (validate cfg eng fs jsonFile s).1 ≠ some (.missingDeclaration f) ∧
      (validate cfg eng fs jsonFile s).1 ≠ some (.emptyDeclaration f)) := by
  rw [validate_forced cfg eng fs jsonFile s v forced hdoc hforced, runValidate_frame,
    runValidate_outcome]
  refine ⟨rfl, rfl, rfl, rfl, rfl, rfl, ?_⟩
  intro f
  cases eng.validate forced v <;> simp

/-- C1, instantiated: `a.json` declares `schema.json`, the forced schema is
another one, `REQUIRE_SCHEMAS` is set. -/
theorem forced_schema_governs_witness :
    (State.init (some ⟨7⟩)).compiledSchema = some ⟨7⟩ ∧ demoFS "a.json" = .parsed docA ∧
    validateCalls (validate ⟨false, true⟩ steadyEngine demoFS "a.json"
      (State.init (some ⟨7⟩))).2.trace = [⟨7⟩] ∧
    loadCalls (validate ⟨false, true⟩ steadyEngine demoFS "a.json"
      (State.init (some ⟨7⟩))).2.trace = [] ∧
    (validate ⟨false, true⟩ steadyEngine demoFS "a.json"
      (State.init (some ⟨7⟩))).2.cachedSchemas = [] :=
  have h := forced_schema_governs ⟨false, true⟩ steadyEngine demoFS "a.json"
    (State.init (some ⟨7⟩)) ⟨7⟩ docA rfl rfl
  ⟨rfl, rfl, h.2.1, h.2.2.1, h.2.2.2.2.1⟩

/-! ## Documents without a declaration -/

/-- C3: with no forced schema, a parsed document without a top-level `$schema`
key: when `REQUIRE_SCHEMAS` is false `validate` returns nil and changes
nothing (no schema is loaded), and `walkValidate` records nil for the file,
returns nil and leaves `hadError` as it was; when `REQUIRE_SCHEMAS` is true
`validate` returns the missing-declaration error, `walkValidate` sets
`hadError`, and whatever the walk visits afterwards the exit status is 1. -/
theorem missing_declaration (cfg : Config) (eng : Engine) (fs : FS) (jsonFile : String)
    (s : State) (v : Doc)
    (hnone : s.compiledSchema = none) (hdoc : fs jsonFile = .parsed v)
    (hkey : mapGet v "$schema" = none) :
    (cfg.requireSchemas = false →
      validate cfg eng fs jsonFile s = (none, s) ∧
      ∀ e : Entry, e.path = jsonFile → e.candidate = true →
        (walkValidate cfg eng fs e s).1 = none ∧
        (walkValidate cfg eng fs e s).2.hadError = s.hadError ∧
        (walkValidate cfg eng fs e s).2.trace = s.trace ∧
        (walkValidate cfg eng fs e s).2.cachedSchemas = s.cachedSchemas ∧
        mapGet (walkValidate cfg eng fs e s).2.schemaErrors jsonFile = some none) ∧
    (cfg.requireSchemas = true →
      validate cfg eng fs jsonFile s = (some (.missingDeclaration jsonFile), s) ∧
      ∀ e : Entry, e.path = jsonFile → e.candidate = true →
        (walkValidate cfg eng fs e s).2.hadError = true ∧
        mapGet (walkValidate cfg eng fs e s).2.schemaErrors jsonFile =
          some (some (.missingDeclaration jsonFile)) ∧
        ∀ rest : List Entry,
          exitStatus (walk cfg eng fs rest (walkValidate cfg eng fs e s).2).2 = 1) := by
  have hv := validate_missing cfg eng fs jsonFile s v hdoc hnone hkey
  constructor
  · intro hreq
    rw [hreq] at hv
    have hv' : validate cfg eng fs jsonFile s = (none, s) := by simpa using hv
    refine ⟨hv', ?_⟩
    intro e he hc
    subst he
    rw [walkValidate_candidate cfg eng fs e s hc, hv']
    exact ⟨rfl, rfl, rfl, rfl, mapGet_mapSet_self _ _ _⟩
  · intro hreq
    rw [hreq] at hv
    have hv' : validate cfg eng fs jsonFile s = (some (.missingDeclaration jsonFile), s) := by
      simpa using hv
    refine ⟨hv', ?_⟩
    intro e he hc
    subst he
    have hw : (walkValidate cfg eng fs e s).2.hadError = true := by
      rw [walkValidate_candidate cfg eng fs e s hc, hv']
    refine ⟨hw, ?_, ?_⟩
    · rw [walkValidate_candidate cfg eng fs e s hc, hv']
      exact mapGet_mapSet_self _ _ _
    · intro rest
      unfold exitStatus
      rw [walk_hadError_mono cfg eng fs rest _ hw]
      rfl

/-- C3, instantiated: `c.json` has no `$schema`; with `REQUIRE_SCHEMAS` set
the run ends with status 1 although `a.json`, visited next, is valid. -/
theorem missing_declaration_witness :
    (State.init none).compiledSchema = none ∧ demoFS "c.json" = .parsed docC ∧
    mapGet docC "$schema" = none ∧
    validate ⟨false, false⟩ steadyEngine demoFS "c.json" (State.init none) =
      (none, State.init none) ∧
    exitStatus (walk ⟨false, true⟩ steadyEngine demoFS [⟨"a.json", some false⟩]
      (walkValidate ⟨false, true⟩ steadyEngine demoFS ⟨"c.json", some false⟩
        (State.init none)).2).2 = 1 :=
  have h := missing_declaration
  ⟨rfl, rfl, rfl,
    ((h ⟨false, false⟩ steadyEngine demoFS "c.json" (State.init none) docC rfl rfl rfl).1 rfl).1,
    (((h ⟨false, true⟩ steadyEngine demoFS "c.json" (State.init none) docC rfl rfl rfl).2
      rfl).2 ⟨"c.json", some false⟩ rfl (by decide)).2.2 [⟨"a.json", some false⟩]⟩

/-! ## Empty and blank declarations -/

/-- C4 fails for a blank declaration: `blank.json` declares the schema `" "`,
a single space.  The test in `validate` is `declaredSchema != ""`, so the space
is passed to `loadSchema` and compiled; with `REQUIRE_SCHEMAS` set the outcome
is the load error, not the empty-declaration error, and with `REQUIRE_SCHEMAS`
unset the outcome is that error too, not nil. -/
theorem blank_declaration_is_loaded :
    (State.init none).compiledSchema = none ∧
    demoFS "blank.json" = .parsed docBlank ∧
    mapGet docBlank "$schema" = some (.str " ") ∧
    (validate ⟨false, true⟩ steadyEngine demoFS "blank.json" (State.init none)).1 =
      some (.loadFailed "not found") ∧
    loadCalls (validate ⟨false, true⟩ steadyEngine demoFS "blank.json"
      (State.init none)).2.trace = [" "] ∧
    (validate ⟨false, false⟩ steadyEngine demoFS "blank.json" (State.init none)).1 =
      some (.loadFailed "not found") ∧
    loadCalls (validate ⟨false, false⟩ steadyEngine demoFS "blank.json"
      (State.init none)).2.trace = [" "] ∧
    compileCalls (validate ⟨false, false⟩ steadyEngine demoFS "blank.json"
      (State.init none)).2.trace = [" "] := by
  refine ⟨rfl, rfl, rfl, ?_, ?_, ?_, ?_, ?_⟩ <;> decide

/-- C4, amended: with no forced schema, a parsed document whose top-level
`$schema` is the empty string: `validate` returns the empty-declaration error
when `REQUIRE_SCHEMAS` is true and nil otherwise, and in both cases changes
nothing, so `loadSchema` is not called.  A `$schema` that is a non-empty
string, blank or not, is passed to `loadSchema`. -/
theorem empty_declaration (cfg : Config) (eng : Engine) (fs : FS) (jsonFile : String)
    (s : State) (v : Doc)
    (hnone : s.compiledSchema = none) (hdoc : fs jsonFile = .parsed v) :
    (mapGet v "$schema" = some (.str "") →
      (cfg.requireSchemas = true →
        validate cfg eng fs jsonFile s = (some (.emptyDeclaration jsonFile), s)) ∧
      (cfg.requireSchemas = false → validate cfg eng fs jsonFile s = (none, s)) ∧
      loadCalls (validate cfg eng fs jsonFile s).2.trace = loadCalls s.trace) ∧
    (∀ w : String, w ≠ "" → mapGet v "$schema" = some (.str w) →
      loadCalls (validate cfg eng fs jsonFile s).2.trace = w :: loadCalls s.trace) := by
  constructor
  · intro hkey
    have hv := validate_empty cfg eng fs jsonFile s v (.str "") hdoc hnone hkey
      (by simp [sprintV])
    refine ⟨?_, ?_, ?_⟩
    · intro hreq; rw [hv, hreq]; rfl
    · intro hreq; rw [hv, hreq]; rfl
    · rw [hv]
  · intro w hw hkey
    have hne : sprintV (.str w) ≠ "" := by simpa [sprintV] using hw
    rw [validate_declared cfg eng fs jsonFile s v (.str w) hdoc hnone hkey hne]
    have hl := loadSchema_loadCalls eng (sprintV (.str w)) s
    rcases hr : loadSchema eng (sprintV (.str w)) s with ⟨res, s1⟩
    rw [hr] at hl
    have hw' : sprintV (.str w) = w := by simp [sprintV]
    rw [hw'] at hl
    cases res with
    | error err => exact hl
    | ok c =>
      simp only [runValidate_frame]
      exact hl

/-- C4 as amended, instantiated: `empty.json` declares the schema `""`. -/
theorem empty_declaration_witness :
    (State.init none).compiledSchema = none ∧ demoFS "empty.json" = .parsed docEmpty ∧
    mapGet docEmpty "$schema" = some (.str "") ∧
    validate ⟨false, true⟩ steadyEngine demoFS "empty.json" (State.init none) =
      (some (.emptyDeclaration "empty.json"), State.init none) ∧
    validate ⟨false, false⟩ steadyEngine demoFS "empty.json" (State.init none) =
      (none, State.init none) :=
  ⟨rfl, rfl, rfl,
    ((empty_declaration ⟨false, true⟩ steadyEngine demoFS "empty.json" (State.init none)
      docEmpty rfl rfl).1 rfl).1 rfl,
    ((empty_declaration ⟨false, false⟩ steadyEngine demoFS "empty.json" (State.init none)
      docEmpty rfl rfl).1 rfl).2.1 rfl⟩

/-! ## The string form of a declaration -/

theorem bracketed_ne_empty (a b c : String) (ha : a ≠ "") : a ++ b ++ c ≠ "" := by
  intro h
  have hl := congrArg String.length h
  simp only [String.length_append] at hl
  have ha' : a.length ≠ 0 := by
    intro h0
    apply ha
    have : a.data = [] := List.length_eq_zero.mp h0
    exact String.ext this
  have : ("" : String).length = 0 := rfl
  omega

theorem sprintV_eq_empty (val : JVal) (h : sprintV val = "") :
    val = .str "" ∨ val = .num "" := by
  cases val with
  | null => simp [sprintV] at h
  | bool b => cases b <;> simp [sprintV] at h
  | num lit => right; simp only [sprintV] at h; rw [h]
  | str s => left; simp only [sprintV] at h; rw [h]
  | arr xs =>
    simp only [sprintV] at h
    exact absurd h (bracketed_ne_empty _ _ _ (by decide))
  | obj kvs =>
    simp only [sprintV] at h
    exact absurd h (bracketed_ne_empty _ _ _ (by decide))

theorem loadSchema_error_is_loadFailed (eng : Engine) (S : String) (s : State) (err : GoError)
    (h : (loadSchema eng S s).1 = .error err) : ∃ cause, err = .loadFailed cause := by
  unfold loadSchema at h
  cases hm : mapGet s.cachedSchemas S with
  | some c => simp [hm] at h
  | none =>
    cases hc : eng.compile s.trace S with
    | error cause =>
      simp only [hm, hc] at h
      exact ⟨cause, by injection h with h; exact h.symm⟩
    | ok c => simp [hm, hc] at h

/-! ## Declared schemas -/

/-- C2: with no forced schema, a parsed document whose top-level `$schema` is
present with a value whose `%v` form is not empty: that form is what
`loadSchema` is called with; when `loadSchema` fails its error (a load error)
is the outcome; otherwise `Validate` runs on the returned schema and the
document.  So for every value of `REQUIRE_SCHEMAS` a nil outcome comes from a
`Validate` call and never from a skip.  The form of `null` is `<nil>` and that
of a number is its literal, both non-empty; the only values with an empty form
are the empty string and a number with an empty literal, which the decoder
does not produce. -/
theorem declared_schema_is_loaded (cfg : Config) (eng : Engine) (fs : FS) (jsonFile : String)
    (s : State) (v : Doc) (val : JVal)
    (hnone : s.compiledSchema = none) (hdoc : fs jsonFile = .parsed v)
    (hkey : mapGet v "$schema" = some val) (hne : sprintV val ≠ "") :
    loadCalls (validate cfg eng fs jsonFile s).2.trace = sprintV val :: loadCalls s.trace ∧
    (∀ err : GoError, (loadSchema eng (sprintV val) s).1 = .error err →
      validate cfg eng fs jsonFile s = (some err, (loadSchema eng (sprintV val) s).2) ∧
      ∃ cause, err = .loadFailed cause) ∧
    (∀ c : Schema, (loadSchema eng (sprintV val) s).1 = .ok c →
      validate cfg eng fs jsonFile s =
        runValidate eng c v (loadSchema eng (sprintV val) s).2 ∧
      validateCalls (validate cfg eng fs jsonFile s).2.trace = c :: validateCalls s.trace) ∧
    ((validate cfg eng fs jsonFile s).1 = none →
      ∃ c : Schema, (loadSchema eng (sprintV val) s).1 = .ok c ∧
        validateCalls (validate cfg eng fs jsonFile s).2.trace = c :: validateCalls s.trace) ∧
    sprintV .null = "<nil>" ∧
    (∀ lit : String, sprintV (.num lit) = lit) ∧
    (∀ w : JVal, sprintV w = "" → w = .str "" ∨ w = .num "") := by
  have hv := validate_declared cfg eng fs jsonFile s v val hdoc hnone hkey hne
  have hl := loadSchema_loadCalls eng (sprintV val) s
  have hvc := loadSchema_validateCalls eng (sprintV val) s
  have herr := loadSchema_error_is_loadFailed eng (sprintV val) s
  rcases hr : loadSchema eng (sprintV val) s with ⟨res, s1⟩
  rw [hr] at hv hl hvc herr
  simp only at hl hvc herr
  cases res with
  | error err =>
    simp only at hv
    refine ⟨by rw [hv]; exact hl, ?_, ?_, ?_, by simp [sprintV], fun lit => by simp [sprintV],
      sprintV_eq_empty⟩
    · intro err' he
      injection he with he
      subst he
      exact ⟨hv, herr err rfl⟩
    · intro c hc; simp at hc
    · intro h0; rw [hv] at h0; simp at h0
  | ok c =>
    simp only at hv
    have hcalls : validateCalls (validate cfg eng fs jsonFile s).2.trace =
        c :: validateCalls s.trace := by
      rw [hv, runValidate_frame]
      simp only [validateCalls, hvc]
    refine ⟨by rw [hv, runValidate_frame]; exact hl, ?_, ?_, ?_, by simp [sprintV],
      fun lit => by simp [sprintV], sprintV_eq_empty⟩
    · intro err he; simp at he
    · intro c' hc'
      injection hc' with hc'
      subst hc'
      exact ⟨hv, hcalls⟩
    · intro _
      exact ⟨c, rfl, hcalls⟩

/-- C2, instantiated: `null.json` declares `null`; `REQUIRE_SCHEMAS` is false
and the file is not skipped: `loadSchema` is called with `<nil>` and its
error is the outcome. -/
theorem declared_schema_is_loaded_witness :
    (State.init none).compiledSchema = none ∧ demoFS "null.json" = .parsed docNull ∧
    mapGet docNull "$schema" = some .null ∧ sprintV .null ≠ "" ∧
    loadCalls (validate ⟨false, false⟩ steadyEngine demoFS "null.json"
      (State.init none)).2.trace = ["<nil>"] ∧
    (validate ⟨false, false⟩ steadyEngine demoFS "null.json" (State.init none)).1 =
      some (.loadFailed "not found") :=
  have h := declared_schema_is_loaded ⟨false, false⟩ steadyEngine demoFS "null.json"
    (State.init none) docNull .null rfl rfl rfl (by decide)
  ⟨rfl, rfl, rfl, by decide, h.1, congrArg Prod.fst ((h.2.1 (.loadFailed "not found") rfl).1)⟩

/-! ## The result of `Validate` -/

theorem validate_resolved (cfg : Config) (eng : Engine) (fs : FS) (jsonFile : String)
    (s : State) (v : Doc) (c : Schema) (hdoc : fs jsonFile = .parsed v)
    (hres : s.compiledSchema = some c ∨
      (s.compiledSchema = none ∧ ∃ val, mapGet v "$schema" = some val ∧ sprintV val ≠ "" ∧
        (loadSchema eng (sprintV val) s).1 = .ok c)) :
    (validate cfg eng fs jsonFile s).1 =
      match eng.validate c v with
      | .validationError detail => some (.validation detail)
      | _ => none := by
  rcases hres with hforced | ⟨hnone, val, hkey, hne, hload⟩
  · rw [validate_forced cfg eng fs jsonFile s v c hdoc hforced, runValidate_outcome]
  · rw [validate_declared cfg eng fs jsonFile s v val hdoc hnone hkey hne]
    rcases hr : loadSchema eng (sprintV val) s with ⟨res, s1⟩
    rw [hr] at hload
    simp only at hload
    subst hload
    simp only [runValidate_outcome]

/-- C10: in `validate`, once the schema `c` is resolved (it is the forced
schema, or `loadSchema` returned it for the declared identifier), the outcome
is non-nil exactly when `Validate` returned a `*ValidationError`, and is then
the error built from its detailed output.  When `Validate` returns an error of
another type the outcome is nil: `walkValidate` records nil for the file,
returns nil and leaves `hadError` as it was. -/
theorem only_validation_errors_fail (cfg : Config) (eng : Engine) (fs : FS)
    (jsonFile : String) (s : State) (v : Doc) (c : Schema)
    (hdoc : fs jsonFile = .parsed v)
    (hres : s.compiledSchema = some c ∨
      (s.compiledSchema = none ∧ ∃ val, mapGet v "$schema" = some val ∧ sprintV val ≠ "" ∧
        (loadSchema eng (sprintV val) s).1 = .ok c)) :
    ((validate cfg eng fs jsonFile s).1 ≠ none ↔
      ∃ detail, eng.validate c v = .validationError detail) ∧
    (∀ detail, eng.validate c v = .validationError detail →
      (validate cfg eng fs jsonFile s).1 = some (.validation detail)) ∧
    (∀ msg, eng.validate c v = .otherError msg →
      (validate cfg eng fs jsonFile s).1 = none ∧
      ∀ e : Entry, e.path = jsonFile → e.candidate = true →
        (walkValidate cfg eng fs e s).1 = none ∧
        mapGet (walkValidate cfg eng fs e s).2.schemaErrors jsonFile = some none ∧
        (walkValidate cfg eng fs e s).2.hadError = s.hadError) := by
  have hv := validate_resolved cfg eng fs jsonFile s v c hdoc hres
  refine ⟨?_, ?_, ?_⟩
  · rw [hv]
    cases eng.validate c v <;> simp
  · intro detail hd
    rw [hv, hd]
  · intro msg hm
    have h0 : (validate cfg eng fs jsonFile s).1 = none := by rw [hv, hm]
    refine ⟨h0, ?_⟩
    intro e he hc
    subst he
    have hf := (validate_frame cfg eng fs e.path s).2.2
    rw [walkValidate_candidate cfg eng fs e s hc, h0]
    exact ⟨rfl, mapGet_mapSet_self _ _ _, hf⟩

/-- C10, instantiated: `empty.json` has no `name`, `Validate` on the forced
schema returns an error that is not a `*ValidationError`, and the file passes. -/
theorem only_validation_errors_fail_witness :
    demoFS "empty.json" = .parsed docEmpty ∧
    (State.init (some ⟨7⟩)).compiledSchema = some ⟨7⟩ ∧
    steadyEngine.validate ⟨7⟩ docEmpty = .otherError "infinite loop" ∧
    (validate ⟨false, true⟩ steadyEngine demoFS "empty.json" (State.init (some ⟨7⟩))).1 =
      none ∧
    (walkValidate ⟨false, true⟩ steadyEngine demoFS ⟨"empty.json", some false⟩
      (State.init (some ⟨7⟩))).2.hadError = false :=
  have h := (only_validation_errors_fail ⟨false, true⟩ steadyEngine demoFS "empty.json"
    (State.init (some ⟨7⟩)) docEmpty ⟨7⟩ rfl (Or.inl rfl)).2.2 "infinite loop" rfl
  ⟨rfl, rfl, rfl, h.1, (h.2 ⟨"empty.json", some false⟩ rfl (by decide)).2.2⟩

/-! ## The schema cache -/

theorem loadSchema_hit (eng : Engine) (S : String) (s : State) (c : Schema)
    (h : mapGet s.cachedSchemas S = some c) :
    loadSchema eng S s =
      (.ok c, { s with trace := .cacheHit S c :: .loadSchemaCall S :: s.trace }) := by
  unfold loadSchema; rw [h]

theorem loadSchema_miss_error (eng : Engine) (S : String) (s : State) (cause : String)
    (h : mapGet s.cachedSchemas S = none) (hc : eng.compile s.trace S = .error cause) :
    loadSchema eng S s =
      (.error (.loadFailed cause),
        { s with trace := .compileCall S (.error cause) :: .loadSchemaCall S :: s.trace }) := by
  unfold loadSchema; rw [h]; simp only [hc]

theorem loadSchema_miss_ok (eng : Engine) (S : String) (s : State) (c : Schema)
    (h : mapGet s.cachedSchemas S = none) (hc : eng.compile s.trace S = .ok c) :
    loadSchema eng S s =
      (.ok c,
        { s with
          cachedSchemas := mapSet s.cachedSchemas S c
          trace := .compileCall S (.ok c) :: .loadSchemaCall S :: s.trace }) := by
  unfold loadSchema; rw [h]; simp only [hc]

theorem loadSchema_ok_cached (eng : Engine) (S : String) (s : State) (c : Schema)
    (h : (loadSchema eng S s).1 = .ok c) :
    mapGet (loadSchema eng S s).2.cachedSchemas S = some c := by
  rcases hm : mapGet s.cachedSchemas S with _ | c'
  · rcases hc : eng.compile s.trace S with cause | c'
    · rw [loadSchema_miss_error eng S s cause hm hc] at h; simp at h
    · rw [loadSchema_miss_ok eng S s c' hm hc] at h ⊢
      injection h with h
      subst h
      exact mapGet_mapSet_self _ _ _
  · rw [loadSchema_hit eng S s c' hm] at h ⊢
    injection h with h
    subst h
    exact hm

theorem loadSchema_other (eng : Engine) (S S' : String) (s : State) (hne : S ≠ S') :
    mapGet (loadSchema eng S' s).2.cachedSchemas S = mapGet s.cachedSchemas S := by
  rcases hm : mapGet s.cachedSchemas S' with _ | c'
  · rcases hc : eng.compile s.trace S' with cause | c'
    · rw [loadSchema_miss_error eng S' s cause hm hc]
    · rw [loadSchema_miss_ok eng S' s c' hm hc]
      exact mapGet_mapSet_ne _ _ _ _ hne
  · rw [loadSchema_hit eng S' s c' hm]

theorem loadSchemas_other (eng : Engine) (S : String) (ids : List String) :
    ∀ s : State, S ∉ ids →
      mapGet (loadSchemas eng ids s).2.cachedSchemas S = mapGet s.cachedSchemas S := by
  induction ids with
  | nil => intro s _; rfl
  | cons S' ids ih =>
    intro s hmem
    have h1 : S ≠ S' := fun h => hmem (by simp [h])
    have h2 : S ∉ ids := fun h => hmem (by simp [h])
    simp only [loadSchemas]
    rw [ih _ h2, loadSchema_other eng S S' s h1]

/-- C6: when `S` is not in the cache and the engine fails to compile it,
`loadSchema` returns a load error and `cachedSchemas` is exactly what it was,
with no entry for `S`.  After any further calls for other identifiers `S` is
still not cached, so the next `loadSchema` call with `S` invokes `Compile`
again and returns what the engine answers then, not the earlier failure. -/
theorem load_failure_not_cached (eng : Engine) (S : String) (s : State) (cause : String)
    (hmiss : mapGet s.cachedSchemas S = none)
    (hfail : eng.compile s.trace S = .error cause) :
    (loadSchema eng S s).1 = .error (.loadFailed cause) ∧
    (loadSchema eng S s).2.cachedSchemas = s.cachedSchemas ∧
    mapGet (loadSchema eng S s).2.cachedSchemas S = none ∧
    compileCalls (loadSchema eng S s).2.trace = S :: compileCalls s.trace ∧
    ∀ others : List String, S ∉ others →
      mapGet (loadSchemas eng others (loadSchema eng S s).2).2.cachedSchemas S = none ∧
      compileCalls (loadSchema eng S (loadSchemas eng others (loadSchema eng S s).2).2).2.trace =
        S :: compileCalls (loadSchemas eng others (loadSchema eng S s).2).2.trace ∧
      (loadSchema eng S (loadSchemas eng others (loadSchema eng S s).2).2).1 =
        (match eng.compile (loadSchemas eng others (loadSchema eng S s).2).2.trace S with
         | .ok c => .ok c
         | .error cause' => .error (.loadFailed cause')) := by
  have h1 := loadSchema_miss_error eng S s cause hmiss hfail
  refine ⟨by rw [h1], by rw [h1], by rw [h1]; exact hmiss, by rw [h1]; rfl, ?_⟩
  intro others hmem
  have hm2 : mapGet (loadSchemas eng others (loadSchema eng S s).2).2.cachedSchemas S = none := by
    rw [loadSchemas_other eng S others _ hmem, h1]; exact hmiss
  refine ⟨hm2, ?_, ?_⟩
  · rcases hc : eng.compile (loadSchemas eng others (loadSchema eng S s).2).2.trace S
      with cause' | c'
    · rw [loadSchema_miss_error eng S _ cause' hm2 hc]; rfl
    · rw [loadSchema_miss_ok eng S _ c' hm2 hc]; rfl
  · rcases hc : eng.compile (loadSchemas eng others (loadSchema eng S s).2).2.trace S
      with cause' | c'
    · rw [loadSchema_miss_error eng S _ cause' hm2 hc]
    · rw [loadSchema_miss_ok eng S _ c' hm2 hc]

/-- C6, instantiated: the engine times out on the first `Compile` of
`schema.json`; nothing is cached, and the next call compiles again and
succeeds. -/
theorem load_failure_not_cached_witness :
    mapGet (State.init none).cachedSchemas "schema.json" = none ∧
    flakyEngine.compile (State.init none).trace "schema.json" = .error "timeout" ∧
    (loadSchema flakyEngine "schema.json" (State.init none)).2.cachedSchemas = [] ∧
    compileCalls (loadSchema flakyEngine "schema.json"
      (loadSchema flakyEngine "schema.json" (State.init none)).2).2.trace =
        ["schema.json", "schema.json"] ∧
    (loadSchema flakyEngine "schema.json"
      (loadSchema flakyEngine "schema.json" (State.init none)).2).1 = .ok ⟨1⟩ :=
  have h := load_failure_not_cached flakyEngine "schema.json" (State.init none) "timeout"
    rfl rfl
  ⟨rfl, rfl, h.2.1, (h.2.2.2.2 [] (by simp)).2.1, (h.2.2.2.2 [] (by simp)).2.2⟩

/-! ## Running `validate` again -/

theorem loadSchema_again (eng : Engine) (hdet : eng.Deterministic) (S : String) (s s' : State)
    (hcache : s'.cachedSchemas = (loadSchema eng S s).2.cachedSchemas) :
    (loadSchema eng S s').1 = (loadSchema eng S s).1 ∧
    (∀ c, (loadSchema eng S s).1 = .ok c →
      compileCalls (loadSchema eng S s').2.trace = compileCalls s'.trace) ∧
    (loadSchema eng S s').2.cachedSchemas = s'.cachedSchemas := by
  rcases hm : mapGet s.cachedSchemas S with _ | c
  · rcases hc : eng.compile s.trace S with cause | c
    · rw [loadSchema_miss_error eng S s cause hm hc] at hcache ⊢
      simp only at hcache
      have hm' : mapGet s'.cachedSchemas S = none := by rw [hcache]; exact hm
      have hc' : eng.compile s'.trace S = .error cause := by rw [hdet s'.trace s.trace S, hc]
      rw [loadSchema_miss_error eng S s' cause hm' hc']
      exact ⟨rfl, fun c h => by simp at h, rfl⟩
    · rw [loadSchema_miss_ok eng S s c hm hc] at hcache ⊢
      simp only at hcache
      have hm' : mapGet s'.cachedSchemas S = some c := by
        rw [hcache]; exact mapGet_mapSet_self _ _ _
      rw [loadSchema_hit eng S s' c hm']
      exact ⟨rfl, fun _ _ => rfl, rfl⟩
  · rw [loadSchema_hit eng S s c hm] at hcache ⊢
    simp only at hcache
    have hm' : mapGet s'.cachedSchemas S = some c := by rw [hcache]; exact hm
    rw [loadSchema_hit eng S s' c hm']
    exact ⟨rfl, fun _ _ => rfl, rfl⟩

/-- C9: with a deterministic engine, running `validate` on the same file a
second time, from the state the first run left, gives the same outcome as the
first run, for every configuration and every starting state (cache included).
When the first run loaded the declared schema the second run finds it in the
cache: it invokes `Compile` no more and leaves the cache as it is.  A nil
outcome on the first run is a nil outcome on the second. -/
theorem validate_twice (cfg : Config) (eng : Engine) (fs : FS) (jsonFile : String) (s : State)
    (hdet : eng.Deterministic) :
    (validate cfg eng fs jsonFile (validate cfg eng fs jsonFile s).2).1 =
      (validate cfg eng fs jsonFile s).1 ∧
    ((validate cfg eng fs jsonFile s).1 = none →
      (validate cfg eng fs jsonFile (validate cfg eng fs jsonFile s).2).1 = none) ∧
    (validate cfg eng fs jsonFile (validate cfg eng fs jsonFile s).2).2.cachedSchemas =
      (validate cfg eng fs jsonFile s).2.cachedSchemas ∧
    (∀ v val c, fs jsonFile = .parsed v → s.compiledSchema = none →
      mapGet v "$schema" = some val → sprintV val ≠ "" →
      (loadSchema eng (sprintV val) s).1 = .ok c →
      mapGet (validate cfg eng fs jsonFile s).2.cachedSchemas (sprintV val) = some c ∧
      compileCalls (validate cfg eng fs jsonFile (validate cfg eng fs jsonFile s).2).2.trace =
        compileCalls (validate cfg eng fs jsonFile s).2.trace) := by
  have key : (validate cfg eng fs jsonFile (validate cfg eng fs jsonFile s).2).1 =
      (validate cfg eng fs jsonFile s).1 ∧
    (validate cfg eng fs jsonFile (validate cfg eng fs jsonFile s).2).2.cachedSchemas =
      (validate cfg eng fs jsonFile s).2.cachedSchemas ∧
    (∀ v val c, fs jsonFile = .parsed v → s.compiledSchema = none →
      mapGet v "$schema" = some val → sprintV val ≠ "" →
      (loadSchema eng (sprintV val) s).1 = .ok c →
      mapGet (validate cfg eng fs jsonFile s).2.cachedSchemas (sprintV val) = some c ∧
      compileCalls (validate cfg eng fs jsonFile (validate cfg eng fs jsonFile s).2).2.trace =
        compileCalls (validate cfg eng fs jsonFile s).2.trace) := by
    have hframe := (validate_frame cfg eng fs jsonFile s).1
    rcases hdoc : fs jsonFile with cause | cause | v
    · simp [validate_openError cfg eng fs jsonFile _ cause hdoc]
    · simp [validate_decodeError cfg eng fs jsonFile _ cause hdoc]
    · rcases hs : s.compiledSchema with _ | forced
      · rw [hs] at hframe
        rcases hkey : mapGet v "$schema" with _ | val
        · simp only [validate_missing cfg eng fs jsonFile s v hdoc hs hkey]
          refine ⟨trivial, trivial, ?_⟩
          intro v' val' c hv' _ hk' _ _
          injection hv' with hv'
          subst hv'
          rw [hkey] at hk'
          simp at hk'
        · by_cases hne : sprintV val = ""
          · simp only [validate_empty cfg eng fs jsonFile s v val hdoc hs hkey hne]
            refine ⟨trivial, trivial, ?_⟩
            intro v' val' c hv' _ hk' hne' _
            injection hv' with hv'
            subst hv'
            rw [hkey] at hk'
            injection hk' with hk'
            subst hk'
            exact absurd hne hne'
          · have h1 := validate_declared cfg eng fs jsonFile s v val hdoc hs hkey hne
            have h2 := validate_declared cfg eng fs jsonFile (validate cfg eng fs jsonFile s).2
              v val hdoc hframe hkey hne
            have hcache : (validate cfg eng fs jsonFile s).2.cachedSchemas =
                (loadSchema eng (sprintV val) s).2.cachedSchemas := by
              rw [h1]
              rcases loadSchema eng (sprintV val) s with ⟨res, s1⟩
              cases res with
              | error err => rfl
              | ok c => simp only [runValidate_frame]
            have hagain := loadSchema_again eng hdet (sprintV val) s
              (validate cfg eng fs jsonFile s).2 hcache
            have hout : (validate cfg eng fs jsonFile (validate cfg eng fs jsonFile s).2).1 =
                (validate cfg eng fs jsonFile s).1 := by
              rw [h2]
              conv_rhs => rw [h1]
              rcases hr' : loadSchema eng (sprintV val) (validate cfg eng fs jsonFile s).2
                with ⟨res', s1'⟩
              rcases hr : loadSchema eng (sprintV val) s with ⟨res, s1⟩
              have : res' = res := by
                have := hagain.1
                rw [hr', hr] at this
                exact this
              subst this
              cases res' with
              | error err => rfl
              | ok c => simp only [runValidate_outcome]
            have hcache2 :
                (validate cfg eng fs jsonFile (validate cfg eng fs jsonFile s).2).2.cachedSchemas =
                  (validate cfg eng fs jsonFile s).2.cachedSchemas := by
              rw [h2]
              have := hagain.2.2
              rcases hr' : loadSchema eng (sprintV val) (validate cfg eng fs jsonFile s).2
                with ⟨res', s1'⟩
              rw [hr'] at this
              cases res' with
              | error err => exact this
              | ok c => simp only [runValidate_frame]; exact this
            refine ⟨hout, hcache2, ?_⟩
            intro v' val' c hv' _ hk' _ hok
            injection hv' with hv'
            subst hv'
            rw [hkey] at hk'
            injection hk' with hk'
            subst hk'
            refine ⟨by rw [hcache]; exact loadSchema_ok_cached eng _ s c hok, ?_⟩
            rw [h2]
            have := hagain.2.1 c hok
            rcases hr' : loadSchema eng (sprintV val) (validate cfg eng fs jsonFile s).2
              with ⟨res', s1'⟩
            rw [hr'] at this
            cases res' with
            | error err => exact this
            | ok c' =>
              simp only [runValidate_frame, compileCalls]
              exact this
      · rw [hs] at hframe
        rw [validate_forced cfg eng fs jsonFile _ v forced hdoc hframe,
          validate_forced cfg eng fs jsonFile s v forced hdoc hs]
        simp only [runValidate_outcome, runValidate_frame]
        exact ⟨trivial, trivial, fun _ _ _ _ h => by simp at h⟩
  exact ⟨key.1, fun h => by rw [key.1]; exact h, key.2.1, key.2.2⟩

/-- C9, instantiated: `b.json` is validated twice from the empty cache; the
first run compiles `schema.json`, the second finds it in the cache, and both
report the same validation error. -/
theorem validate_twice_witness :
    steadyEngine.Deterministic ∧
    (validate ⟨false, false⟩ steadyEngine demoFS "b.json" (State.init none)).1 =
      some (.validation "name: expected string") ∧
    (validate ⟨false, false⟩ steadyEngine demoFS "b.json"
      (validate ⟨false, false⟩ steadyEngine demoFS "b.json" (State.init none)).2).1 =
      (validate ⟨false, false⟩ steadyEngine demoFS "b.json" (State.init none)).1 ∧
    compileCalls (validate ⟨false, false⟩ steadyEngine demoFS "b.json"
      (validate ⟨false, false⟩ steadyEngine demoFS "b.json" (State.init none)).2).2.trace =
      ["schema.json"] :=
  ⟨fun _ _ _ => rfl, by decide,
    (validate_twice ⟨false, false⟩ steadyEngine demoFS "b.json" (State.init none)
      (fun _ _ _ => rfl)).1, by decide⟩

/-! ## Compiling once -/

theorem replicate_snoc {α : Type} (n : Nat) (a : α) :
    List.replicate n a ++ [a] = List.replicate (n + 1) a := by
  induction n with
  | zero => rfl
  | succ n ih => simp only [List.replicate_succ, List.cons_append, ih]

theorem cacheInv_step (eng : Engine) (S S' : String) (s : State) (n : Nat)
    (h : CacheInv eng S s n) :
    CacheInv eng S (loadSchema eng S' s).2 (n + if S' = S then 1 else 0) := by
  by_cases hS : S' = S
  · subst hS
    simp only [if_true]
    rcases h with ⟨hm, hh, hf⟩ | ⟨f, k, c, hm, hh, hn, hf, hc⟩
    · rcases hcomp : eng.compile s.trace S' with cause | c
      · left
        rw [loadSchema_miss_error eng S' s cause hm hcomp]
        refine ⟨hm, ?_, fun _ => ⟨s.trace, cause, hcomp⟩⟩
        simp only [history, if_true, hh, replicate_snoc]
      · right
        rw [loadSchema_miss_ok eng S' s c hm hcomp]
        refine ⟨n, 0, c, mapGet_mapSet_self _ _ _, ?_, rfl, hf, ⟨s.trace, hcomp⟩⟩
        simp only [history, if_true, hh, List.replicate_zero]
    · right
      rw [loadSchema_hit eng S' s c hm]
      refine ⟨f, k + 1, c, hm, ?_, by omega, hf, hc⟩
      simp only [history, if_true, hh, List.append_assoc, List.cons_append,
        ← replicate_snoc k]
  · simp only [hS, if_false, Nat.add_zero]
    have hne : S ≠ S' := fun h' => hS h'.symm
    have hcache := loadSchema_other eng S S' s hne
    have hhist : history S (loadSchema eng S' s).2.trace = history S s.trace := by
      rcases hm : mapGet s.cachedSchemas S' with _ | c'
      · rcases hcomp : eng.compile s.trace S' with cause | c'
        · rw [loadSchema_miss_error eng S' s cause hm hcomp]
          simp only [history, hS, if_false]
        · rw [loadSchema_miss_ok eng S' s c' hm hcomp]
          simp only [history, hS, if_false]
      · rw [loadSchema_hit eng S' s c' hm]
        simp only [history, hS, if_false]
    unfold CacheInv
    rw [hcache, hhist]
    exact h

theorem cacheInv_loadSchemas (eng : Engine) (S : String) (ids : List String) :
    ∀ (s : State) (n : Nat), CacheInv eng S s n →
      CacheInv eng S (loadSchemas eng ids s).2 (n + ids.count S) := by
  induction ids with
  | nil => intro s n h; simpa [loadSchemas] using h
  | cons S' ids ih =>
    intro s n h
    have h1 := ih _ _ (cacheInv_step eng S S' s n h)
    simp only [loadSchemas]
    have hcount : n + (S' :: ids).count S = (n + if S' = S then 1 else 0) + ids.count S := by
      rw [List.count_cons]
      by_cases hS : S' = S
      · simp [hS]; omega
      · simp [hS]
    rw [hcount]
    exact h1

theorem cacheInv_init (eng : Engine) (S : String) (forced : Option Schema) :
    CacheInv eng S (State.init forced) 0 :=
  Or.inl ⟨rfl, rfl, fun h => absurd h (Nat.lt_irrefl 0)⟩

/-- C5 fails when a `Compile` fails before one succeeds: the engine times out
on the first `Compile` of the run.  Two calls of `loadSchema` with
`schema.json` from the empty cache: the first fails, the second compiles and
succeeds, so `Compile` is invoked twice for `schema.json` and there is no
cache hit, although a schema was returned for it.  The same in a walk:
`a.json` and `b.json` both declare `schema.json`, `b.json` is validated
against it, and `Compile` ran twice. -/
theorem compiled_twice :
    (loadSchemas flakyEngine ["schema.json", "schema.json"] (State.init none)).1 =
      [.error (.loadFailed "timeout"), .ok ⟨1⟩] ∧
    compileCalls (loadSchemas flakyEngine ["schema.json", "schema.json"]
      (State.init none)).2.trace = ["schema.json", "schema.json"] ∧
    history "schema.json" (loadSchemas flakyEngine ["schema.json", "schema.json"]
      (State.init none)).2.trace = [.failed, .compiled ⟨1⟩] ∧
    validateCalls (walk ⟨false, false⟩ flakyEngine demoFS
      [⟨"a.json", some false⟩, ⟨"b.json", some false⟩] (State.init none)).2.trace = [⟨1⟩] ∧
    compileCalls (walk ⟨false, false⟩ flakyEngine demoFS
      [⟨"a.json", some false⟩, ⟨"b.json", some false⟩] (State.init none)).2.trace =
      ["schema.json", "schema.json"] := by
  refine ⟨rfl, ?_, ?_, ?_, ?_⟩ <;> decide

/-- C5, amended: over any sequence of `loadSchema` calls from the empty cache,
for every identifier `S`: either `S` is not cached and every call with `S`
failed in `Compile`, or `S` is cached as `c` and the calls with `S` were, in
order, `f` calls whose `Compile` failed, one call whose `Compile` returned `c`
(stored under `S`), and `h` cache hits that returned `c`, with `f + 1 + h` the
number of calls with `S`.  So `Compile` succeeds at most once for `S`, and with
a deterministic engine `f = 0`: `Compile` is invoked exactly once.  In the
second case a further call with `S` returns `c` and changes nothing but the
trace. -/
theorem compiled_at_most_once (eng : Engine) (ids : List String) (S : String)
    (forced : Option Schema) :
    (mapGet (loadSchemas eng ids (State.init forced)).2.cachedSchemas S = none ∧
      history S (loadSchemas eng ids (State.init forced)).2.trace =
        List.replicate (ids.count S) .failed) ∨
    (∃ f h c,
      mapGet (loadSchemas eng ids (State.init forced)).2.cachedSchemas S = some c ∧
      history S (loadSchemas eng ids (State.init forced)).2.trace =
        List.replicate f .failed ++ .compiled c :: List.replicate h (.hit c) ∧
      f + 1 + h = ids.count S ∧
      (eng.Deterministic → f = 0) ∧
      loadSchema eng S (loadSchemas eng ids (State.init forced)).2 =
        (.ok c,
          { (loadSchemas eng ids (State.init forced)).2 with
            trace := .cacheHit S c :: .loadSchemaCall S ::
              (loadSchemas eng ids (State.init forced)).2.trace })) := by
  have h := cacheInv_loadSchemas eng S ids (State.init forced) 0 (cacheInv_init eng S forced)
  rw [Nat.zero_add] at h
  rcases h with ⟨hm, hh, _⟩ | ⟨f, k, c, hm, hh, hn, hf, t, hc⟩
  · exact Or.inl ⟨hm, hh⟩
  · refine Or.inr ⟨f, k, c, hm, hh, hn, ?_, loadSchema_hit eng S _ c hm⟩
    intro hdet
    by_contra hf0
    obtain ⟨t', cause, he⟩ := hf (Nat.pos_of_ne_zero hf0)
    rw [hdet t' t S, hc] at he
    simp at he

/-- C5 as amended, instantiated: three calls with `schema.json` and one with
another identifier, on the engine that times out once: one failure, one
successful `Compile`, one cache hit. -/
theorem compiled_at_most_once_witness :
    ∃ f h c,
      mapGet (loadSchemas flakyEngine
        ["schema.json", "other.json", "schema.json", "schema.json"]
        (State.init none)).2.cachedSchemas "schema.json" = some c ∧
      history "schema.json" (loadSchemas flakyEngine
        ["schema.json", "other.json", "schema.json", "schema.json"]
        (State.init none)).2.trace =
          List.replicate f .failed ++ .compiled c :: List.replicate h (.hit c) ∧
      f + 1 + h = 3 :=
  (compiled_at_most_once flakyEngine
    ["schema.json", "other.json", "schema.json", "schema.json"] "schema.json" none).elim
    (fun h => absurd h.1 (by decide))
    (fun ⟨f, h, c, h1, h2, h3, _, _⟩ => ⟨f, h, c, h1, h2, h3⟩)

/-! ## The walk -/

theorem walkValidate_result (cfg : Config) (eng : Engine) (fs : FS) (e : Entry) (s : State) :
    (walkValidate cfg eng fs e s).1 =
      if cfg.failFast && e.candidate then (validate cfg eng fs e.path s).1 else none := by
  cases hc : e.candidate with
  | false => rw [walkValidate_skip cfg eng fs e s hc]; simp
  | true =>
    rw [walkValidate_candidate cfg eng fs e s hc]
    cases hv : (validate cfg eng fs e.path s).1 with
    | none => simp
    | some x => cases cfg.failFast <;> simp

theorem walkValidate_keys (cfg : Config) (eng : Engine) (fs : FS) (e : Entry) (s : State)
    (p : String) :
    p ∈ mapKeys (walkValidate cfg eng fs e s).2.schemaErrors ↔
      (e.candidate = true ∧ p = e.path) ∨ p ∈ mapKeys s.schemaErrors := by
  cases hc : e.candidate with
  | false => rw [walkValidate_skip cfg eng fs e s hc]; simp
  | true =>
    rw [walkValidate_candidate cfg eng fs e s hc]
    have hf := (validate_frame cfg eng fs e.path s).2.1
    cases hv : (validate cfg eng fs e.path s).1 with
    | none => simp only [mem_mapKeys_mapSet, hf, true_and]
    | some x => simp only [mem_mapKeys_mapSet, hf, true_and]

theorem mem_candidatePaths_cons (e : Entry) (es : List Entry) (p : String) :
    p ∈ candidatePaths (e :: es) ↔ (e.candidate = true ∧ p = e.path) ∨ p ∈ candidatePaths es := by
  unfold candidatePaths
  cases hc : e.candidate with
  | false => simp [List.filter, hc]
  | true =>
    simp only [List.filter, hc, List.map_cons, List.mem_cons, true_and]

theorem walk_cons_none (cfg : Config) (eng : Engine) (fs : FS) (e : Entry) (es : List Entry)
    (s : State) (h : (walkValidate cfg eng fs e s).1 = none) :
    walk cfg eng fs (e :: es) s = walk cfg eng fs es (walkValidate cfg eng fs e s).2 := by
  rcases hw : walkValidate cfg eng fs e s with ⟨r, s1⟩
  rw [hw] at h
  simp only at h
  subst h
  simp only [walk, hw]

theorem walk_cons_some (cfg : Config) (eng : Engine) (fs : FS) (e : Entry) (es : List Entry)
    (s : State) (err : GoError) (h : (walkValidate cfg eng fs e s).1 = some err) :
    walk cfg eng fs (e :: es) s = walkValidate cfg eng fs e s := by
  rcases hw : walkValidate cfg eng fs e s with ⟨r, s1⟩
  rw [hw] at h
  simp only at h
  subst h
  simp only [walk, hw]

theorem walk_append_none (cfg : Config) (eng : Engine) (fs : FS) (pre rest : List Entry) :
    ∀ s : State, (walk cfg eng fs pre s).1 = none →
      walk cfg eng fs (pre ++ rest) s = walk cfg eng fs rest (walk cfg eng fs pre s).2 := by
  induction pre with
  | nil => intro s _; rfl
  | cons e pre ih =>
    intro s h
    cases hw : (walkValidate cfg eng fs e s).1 with
    | none =>
      rw [walk_cons_none cfg eng fs e pre s hw] at h ⊢
      rw [List.cons_append, walk_cons_none cfg eng fs e (pre ++ rest) s hw]
      exact ih _ h
    | some err =>
      rw [walk_cons_some cfg eng fs e pre s err hw] at h
      rw [hw] at h
      simp at h

theorem walk_keys_none (cfg : Config) (eng : Engine) (fs : FS) (es : List Entry) (p : String) :
    ∀ s : State, (walk cfg eng fs es s).1 = none →
      (p ∈ mapKeys (walk cfg eng fs es s).2.schemaErrors ↔
        p ∈ candidatePaths es ∨ p ∈ mapKeys s.schemaErrors) := by
  induction es with
  | nil => intro s _; simp [walk, candidatePaths]
  | cons e es ih =>
    intro s h
    cases hw : (walkValidate cfg eng fs e s).1 with
    | none =>
      rw [walk_cons_none cfg eng fs e es s hw] at h ⊢
      rw [ih _ h, walkValidate_keys, mem_candidatePaths_cons]
      tauto
    | some err =>
      rw [walk_cons_some cfg eng fs e es s err hw] at h
      rw [hw] at h
      simp at h

theorem walk_no_failFast (cfg : Config) (eng : Engine) (fs : FS) (es : List Entry)
    (hff : cfg.failFast = false) : ∀ s : State, (walk cfg eng fs es s).1 = none := by
  induction es with
  | nil => intro s; rfl
  | cons e es ih =>
    intro s
    have hw : (walkValidate cfg eng fs e s).1 = none := by
      rw [walkValidate_result, hff]; simp
    rw [walk_cons_none cfg eng fs e es s hw]
    exact ih _

theorem walk_split (cfg : Config) (eng : Engine) (fs : FS) (es : List Entry) :
    ∀ (s : State) (err : GoError), (walk cfg eng fs es s).1 = some err →
      ∃ pre e post, es = pre ++ e :: post ∧ e.candidate = true ∧ cfg.failFast = true ∧
        (walk cfg eng fs pre s).1 = none ∧
        (validate cfg eng fs e.path (walk cfg eng fs pre s).2).1 = some err ∧
        walk cfg eng fs es s = walkValidate cfg eng fs e (walk cfg eng fs pre s).2 := by
  induction es with
  | nil => intro s err h; simp [walk] at h
  | cons e es ih =>
    intro s err h
    cases hw : (walkValidate cfg eng fs e s).1 with
    | none =>
      rw [walk_cons_none cfg eng fs e es s hw] at h
      obtain ⟨pre, e', post, hes, hc, hff, hpre, hv, hwalk⟩ := ih _ err h
      refine ⟨e :: pre, e', post, by rw [hes]; rfl, hc, hff, ?_, ?_, ?_⟩
      · rw [walk_cons_none cfg eng fs e pre s hw]; exact hpre
      · rw [walk_cons_none cfg eng fs e pre s hw]; exact hv
      · rw [walk_cons_none cfg eng fs e es s hw, walk_cons_none cfg eng fs e pre s hw]
        exact hwalk
    | some err' =>
      rw [walk_cons_some cfg eng fs e es s err' hw] at h ⊢
      rw [hw] at h
      injection h with h
      subst h
      have hr := walkValidate_result cfg eng fs e s
      rw [hw] at hr
      have hcond : (cfg.failFast && e.candidate) = true := by
        by_contra hneg
        simp only [Bool.not_eq_true] at hneg
        rw [hneg] at hr
        simp at hr
      simp only [Bool.and_eq_true] at hcond
      refine ⟨[], e, es, rfl, hcond.2, hcond.1, rfl, ?_, rfl⟩
      simp only [hcond.1, hcond.2, Bool.and_self, if_true] at hr
      exact hr.symm

theorem walk_append_some (cfg : Config) (eng : Engine) (fs : FS) (pre rest : List Entry) :
    ∀ (s : State) (err : GoError), (walk cfg eng fs pre s).1 = some err →
      walk cfg eng fs (pre ++ rest) s = walk cfg eng fs pre s := by
  induction pre with
  | nil => intro s err h; simp [walk] at h
  | cons e pre ih =>
    intro s err h
    cases hw : (walkValidate cfg eng fs e s).1 with
    | none =>
      rw [walk_cons_none cfg eng fs e pre s hw] at h ⊢
      rw [List.cons_append, walk_cons_none cfg eng fs e (pre ++ rest) s hw]
      exact ih _ err h
    | some err' =>
      rw [walk_cons_some cfg eng fs e pre s err' hw, List.cons_append,
        walk_cons_some cfg eng fs e (pre ++ rest) s err' hw]

theorem walk_prefix_none (cfg : Config) (eng : Engine) (fs : FS) (pre rest : List Entry)
    (s : State) (h : (walk cfg eng fs (pre ++ rest) s).1 = none) :
    (walk cfg eng fs pre s).1 = none := by
  cases hp : (walk cfg eng fs pre s).1 with
  | none => rfl
  | some err =>
    rw [walk_append_some cfg eng fs pre rest s err hp, hp] at h
    simp at h

theorem walk_none_outcomes (cfg : Config) (eng : Engine) (fs : FS) (s : State)
    (hff : cfg.failFast = true) (pre : List Entry) (e : Entry) (post : List Entry)
    (h : (walk cfg eng fs (pre ++ e :: post) s).1 = none) (hc : e.candidate = true) :
    (validate cfg eng fs e.path (walk cfg eng fs pre s).2).1 = none := by
  have hpre := walk_prefix_none cfg eng fs pre (e :: post) s h
  rw [walk_append_none cfg eng fs pre (e :: post) s hpre] at h
  have hr := walkValidate_result cfg eng fs e (walk cfg eng fs pre s).2
  simp only [hff, hc, Bool.and_self, if_true] at hr
  rw [← hr]
  cases hw : (walkValidate cfg eng fs e (walk cfg eng fs pre s).2).1 with
  | none => rfl
  | some err =>
    rw [walk_cons_some cfg eng fs e post _ err hw, hw] at h
    simp at h

/-- C7: the paths recorded in `schemaErrors` after the walk, for every
sequence of entries.  With `FAIL_FAST` false `walkValidate` always returns
nil, the walk returns nil, and the recorded paths are those of all the
candidates (entries that are not directories and whose path ends in `.json` or
`.geojson`).  With `FAIL_FAST` true either every candidate had a nil outcome
and all are recorded, or the entries split as `pre ++ e :: post` where `e` is
the first candidate whose outcome is an error: the walk returns that error and
the recorded paths are those of the candidates of `pre ++ [e]`, none of `post`
being visited. -/
theorem recorded_paths (cfg : Config) (eng : Engine) (fs : FS) (es : List Entry)
    (forced : Option Schema) :
    (cfg.failFast = false →
      (∀ (e : Entry) (s : State), (walkValidate cfg eng fs e s).1 = none) ∧
      (walk cfg eng fs es (State.init forced)).1 = none ∧
      ∀ p, p ∈ mapKeys (walk cfg eng fs es (State.init forced)).2.schemaErrors ↔
        p ∈ candidatePaths es) ∧
    (cfg.failFast = true →
      ((walk cfg eng fs es (State.init forced)).1 = none ∧
        (∀ pre e post, es = pre ++ e :: post → e.candidate = true →
          (validate cfg eng fs e.path (walk cfg eng fs pre (State.init forced)).2).1 = none) ∧
        ∀ p, p ∈ mapKeys (walk cfg eng fs es (State.init forced)).2.schemaErrors ↔
          p ∈ candidatePaths es) ∨
      (∃ pre e post err, es = pre ++ e :: post ∧ e.candidate = true ∧
        (∀ pre₁ e₁ post₁, pre = pre₁ ++ e₁ :: post₁ → e₁.candidate = true →
          (validate cfg eng fs e₁.path (walk cfg eng fs pre₁ (State.init forced)).2).1 = none) ∧
        (validate cfg eng fs e.path (walk cfg eng fs pre (State.init forced)).2).1 = some err ∧
        (walk cfg eng fs es (State.init forced)).1 = some err ∧
        walk cfg eng fs es (State.init forced) = walk cfg eng fs (pre ++ [e]) (State.init forced) ∧
        ∀ p, p ∈ mapKeys (walk cfg eng fs es (State.init forced)).2.schemaErrors ↔
          p ∈ candidatePaths (pre ++ [e]))) := by
  constructor
  · intro hff
    refine ⟨?_, walk_no_failFast cfg eng fs es hff _, ?_⟩
    · intro e s
      rw [walkValidate_result, hff]; simp
    · intro p
      rw [walk_keys_none cfg eng fs es p _ (walk_no_failFast cfg eng fs es hff _)]
      simp [State.init, mapKeys]
  · intro hff
    cases hw : (walk cfg eng fs es (State.init forced)).1 with
    | none =>
      left
      refine ⟨rfl, ?_, ?_⟩
      · intro pre e post hes hc
        subst hes
        exact walk_none_outcomes cfg eng fs _ hff pre e post hw hc
      · intro p
        rw [walk_keys_none cfg eng fs es p _ hw]
        simp [State.init, mapKeys]
    | some err =>
      right
      obtain ⟨pre, e, post, hes, hc, _, hpre, hv, hwalk⟩ :=
        walk_split cfg eng fs es (State.init forced) err hw
      have hlast : walk cfg eng fs (pre ++ [e]) (State.init forced) =
          walkValidate cfg eng fs e (walk cfg eng fs pre (State.init forced)).2 := by
        rw [walk_append_none cfg eng fs pre [e] _ hpre]
        have hr := walkValidate_result cfg eng fs e (walk cfg eng fs pre (State.init forced)).2
        simp only [hff, hc, Bool.and_self, if_true, hv] at hr
        rw [walk_cons_some cfg eng fs e [] _ err hr]
      refine ⟨pre, e, post, err, hes, hc, ?_, hv, rfl, by rw [hwalk, hlast], ?_⟩
      · intro pre₁ e₁ post₁ hp hc₁
        subst hp
        exact walk_none_outcomes cfg eng fs _ hff pre₁ e₁ post₁ hpre hc₁
      · intro p
        rw [hwalk, walkValidate_keys, walk_keys_none cfg eng fs pre p _ hpre]
        have hcp : p ∈ candidatePaths (pre ++ [e]) ↔
            p ∈ candidatePaths pre ∨ (e.candidate = true ∧ p = e.path) := by
          unfold candidatePaths
          simp only [List.filter_append, List.map_append, List.mem_append]
          have : p ∈ List.map Entry.path (List.filter Entry.candidate [e]) ↔
              (e.candidate = true ∧ p = e.path) := by
            simp [List.filter, hc]
          rw [this]
        rw [hcp]
        simp only [State.init, mapKeys, List.map_nil, List.not_mem_nil, or_false]
        tauto

/-- C7, instantiated: with `FAIL_FAST` false all three candidates are
recorded, the directory and the text file are not. -/
theorem recorded_paths_witness :
    (walk ⟨false, false⟩ steadyEngine demoFS
      [⟨"data", some true⟩, ⟨"a.json", some false⟩, ⟨"b.json", some false⟩,
        ⟨"notes.txt", some false⟩, ⟨"c.geojson", none⟩] (State.init none)).1 = none ∧
    ∀ p, p ∈ mapKeys (walk ⟨false, false⟩ steadyEngine demoFS
      [⟨"data", some true⟩, ⟨"a.json", some false⟩, ⟨"b.json", some false⟩,
        ⟨"notes.txt", some false⟩, ⟨"c.geojson", none⟩] (State.init none)).2.schemaErrors ↔
      p ∈ ["a.json", "b.json", "c.geojson"] :=
  ((recorded_paths ⟨false, false⟩ steadyEngine demoFS
    [⟨"data", some true⟩, ⟨"a.json", some false⟩, ⟨"b.json", some false⟩,
      ⟨"notes.txt", some false⟩, ⟨"c.geojson", none⟩] none).1 rfl).2

/-! ## `hadError` and the recorded outcomes -/

theorem mapGet_mem_mapKeys {β : Type} (m : GoMap β) (k : String) (v : β)
    (h : mapGet m k = some v) : k ∈ mapKeys m := by
  induction m with
  | nil => simp [mapGet] at h
  | cons q m ih =>
    obtain ⟨a, b⟩ := q
    by_cases hak : a = k
    · simp [mapKeys, hak]
    · simp only [mapGet, hak, if_false] at h
      have := ih h
      simp only [mapKeys, List.map_cons, List.mem_cons]
      exact Or.inr this

theorem walkValidate_schemaErrors (cfg : Config) (eng : Engine) (fs : FS) (e : Entry)
    (s : State) (hc : e.candidate = true) :
    (walkValidate cfg eng fs e s).2.schemaErrors =
      mapSet s.schemaErrors e.path (validate cfg eng fs e.path s).1 := by
  rw [walkValidate_candidate cfg eng fs e s hc]
  have hf := (validate_frame cfg eng fs e.path s).2.1
  cases hv : (validate cfg eng fs e.path s).1 with
  | none => simp only [hf]
  | some x => simp only [hf]

theorem walkValidate_error_recorded (cfg : Config) (eng : Engine) (fs : FS) (e : Entry)
    (s : State)
    (h : (∃ p err, mapGet s.schemaErrors p = some (some err)) → s.hadError = true) :
    (∃ p err, mapGet (walkValidate cfg eng fs e s).2.schemaErrors p = some (some err)) →
      (walkValidate cfg eng fs e s).2.hadError = true := by
  cases hc : e.candidate with
  | false => rw [walkValidate_skip cfg eng fs e s hc]; exact h
  | true =>
    rintro ⟨p, err, hp⟩
    rw [walkValidate_hadError, hc]
    rw [walkValidate_schemaErrors cfg eng fs e s hc] at hp
    by_cases hpe : p = e.path
    · subst hpe
      rw [mapGet_mapSet_self] at hp
      injection hp with hp
      rw [hp]; simp
    · rw [mapGet_mapSet_ne _ _ _ _ hpe] at hp
      rw [h ⟨p, err, hp⟩]; rfl

theorem walk_error_recorded (cfg : Config) (eng : Engine) (fs : FS) (es : List Entry) :
    ∀ s : State,
      ((∃ p err, mapGet s.schemaErrors p = some (some err)) → s.hadError = true) →
      (∃ p err, mapGet (walk cfg eng fs es s).2.schemaErrors p = some (some err)) →
        (walk cfg eng fs es s).2.hadError = true := by
  induction es with
  | nil => intro s h; exact h
  | cons e es ih =>
    intro s h
    have h1 := walkValidate_error_recorded cfg eng fs e s h
    cases hw : (walkValidate cfg eng fs e s).1 with
    | none => rw [walk_cons_none cfg eng fs e es s hw]; exact ih _ h1
    | some err => rw [walk_cons_some cfg eng fs e es s err hw]; exact h1

theorem walkValidate_hadError_recorded (cfg : Config) (eng : Engine) (fs : FS) (e : Entry)
    (s : State) (hfresh : e.candidate = true → e.path ∉ mapKeys s.schemaErrors)
    (h : s.hadError = true → ∃ p err, mapGet s.schemaErrors p = some (some err)) :
    (walkValidate cfg eng fs e s).2.hadError = true →
      ∃ p err, mapGet (walkValidate cfg eng fs e s).2.schemaErrors p = some (some err) := by
  cases hc : e.candidate with
  | false => rw [walkValidate_skip cfg eng fs e s hc]; exact h
  | true =>
    intro hh
    rw [walkValidate_hadError, hc] at hh
    rw [walkValidate_schemaErrors cfg eng fs e s hc]
    cases hv : (validate cfg eng fs e.path s).1 with
    | some x => exact ⟨e.path, x, mapGet_mapSet_self _ _ _⟩
    | none =>
      rw [hv] at hh
      simp only [Option.isSome_none, Bool.and_false, Bool.or_false] at hh
      obtain ⟨p, err, hp⟩ := h hh
      have hpk := mapGet_mem_mapKeys _ _ _ hp
      have hne : p ≠ e.path := fun heq => hfresh hc (heq ▸ hpk)
      exact ⟨p, err, by rw [mapGet_mapSet_ne _ _ _ _ hne]; exact hp⟩

theorem walk_hadError_recorded (cfg : Config) (eng : Engine) (fs : FS) (es : List Entry) :
    ∀ s : State, (candidatePaths es).Nodup →
      (∀ p ∈ candidatePaths es, p ∉ mapKeys s.schemaErrors) →
      (s.hadError = true → ∃ p err, mapGet s.schemaErrors p = some (some err)) →
      (walk cfg eng fs es s).2.hadError = true →
        ∃ p err, mapGet (walk cfg eng fs es s).2.schemaErrors p = some (some err) := by
  induction es with
  | nil => intro s _ _ h; exact h
  | cons e es ih =>
    intro s hnd hfresh h
    have hfe : e.candidate = true → e.path ∉ mapKeys s.schemaErrors := by
      intro hc
      exact hfresh _ ((mem_candidatePaths_cons e es e.path).mpr (Or.inl ⟨hc, rfl⟩))
    have h1 := walkValidate_hadError_recorded cfg eng fs e s hfe h
    cases hw : (walkValidate cfg eng fs e s).1 with
    | some err => rw [walk_cons_some cfg eng fs e es s err hw]; exact h1
    | none =>
      rw [walk_cons_none cfg eng fs e es s hw]
      have hnd' : (candidatePaths es).Nodup ∧
          (e.candidate = true → e.path ∉ candidatePaths es) := by
        unfold candidatePaths at hnd ⊢
        cases hc : e.candidate with
        | false =>
          simp only [List.filter, hc] at hnd
          exact ⟨hnd, fun h => by simp at h⟩
        | true =>
          simp only [List.filter, hc, List.map_cons, List.nodup_cons] at hnd
          exact ⟨hnd.2, fun _ => hnd.1⟩
      refine ih _ hnd'.1 ?_ h1
      intro p hp hk
      rw [walkValidate_keys] at hk
      rcases hk with ⟨hc, hpe⟩ | hk
      · exact hnd'.2 hc (hpe ▸ hp)
      · exact hfresh p ((mem_candidatePaths_cons e es p).mpr (Or.inr hp)) hk

/-- C8: starting from `hadError = false` and an empty `schemaErrors`, after the
walk over the entries (with or without `FAIL_FAST`), whose candidate paths are
pairwise distinct because `filepath.WalkDir` hands each file to `walkValidate`
once, `hadError` is true if and only if some recorded path has a non-nil
error.  Whatever the entries, a recorded non-nil error implies `hadError`; in
every state a file whose outcome is nil leaves `hadError` as it was, and no
step of the walk resets `hadError` to false. -/
theorem hadError_iff_recorded_error (cfg : Config) (eng : Engine) (fs : FS)
    (es : List Entry) (forced : Option Schema) :
    ((∃ p err, mapGet (walk cfg eng fs es (State.init forced)).2.schemaErrors p =
        some (some err)) →
      (walk cfg eng fs es (State.init forced)).2.hadError = true) ∧
    ((candidatePaths es).Nodup →
      ((walk cfg eng fs es (State.init forced)).2.hadError = true ↔
        ∃ p err, mapGet (walk cfg eng fs es (State.init forced)).2.schemaErrors p =
          some (some err))) ∧
    (∀ (e : Entry) (s : State), (validate cfg eng fs e.path s).1 = none →
      (walkValidate cfg eng fs e s).2.hadError = s.hadError) ∧
    (∀ (e : Entry) (s : State), s.hadError = true →
      (walkValidate cfg eng fs e s).2.hadError = true) ∧
    (∀ (rest : List Entry) (s : State), s.hadError = true →
      (walk cfg eng fs rest s).2.hadError = true) := by
  have h0 : (∃ p err, mapGet (State.init forced).schemaErrors p = some (some err)) →
      (State.init forced).hadError = true := by
    rintro ⟨p, err, h⟩
    simp [State.init, mapGet] at h
  have h1 := walk_error_recorded cfg eng fs es (State.init forced) h0
  refine ⟨h1, ?_, ?_, ?_, ?_⟩
  · intro hnd
    refine ⟨?_, h1⟩
    apply walk_hadError_recorded cfg eng fs es (State.init forced) hnd
    · intro p _ hk
      simp [State.init, mapKeys] at hk
    · intro h
      simp [State.init] at h
  · intro e s hv
    rw [walkValidate_hadError, hv]
    simp
  · intro e s hs
    rw [walkValidate_hadError, hs]
    rfl
  · intro rest s hs
    exact walk_hadError_mono cfg eng fs rest s hs

/-- C8, instantiated: a directory, `a.json` (valid), `b.json`
(invalid) and `c.json` (skipped, no `$schema`), each visited once. -/
theorem hadError_iff_recorded_error_witness :
    (candidatePaths [⟨"data", some true⟩, ⟨"a.json", some false⟩, ⟨"b.json", some false⟩,
      ⟨"c.json", some false⟩]).Nodup ∧
    ((walk ⟨false, false⟩ steadyEngine demoFS
        [⟨"data", some true⟩, ⟨"a.json", some false⟩, ⟨"b.json", some false⟩,
          ⟨"c.json", some false⟩] (State.init none)).2.hadError = true ↔
      ∃ p err, mapGet (walk ⟨false, false⟩ steadyEngine demoFS
        [⟨"data", some true⟩, ⟨"a.json", some false⟩, ⟨"b.json", some false⟩,
          ⟨"c.json", some false⟩] (State.init none)).2.schemaErrors p = some (some err)) ∧
    (walk ⟨false, false⟩ steadyEngine demoFS
        [⟨"data", some true⟩, ⟨"a.json", some false⟩, ⟨"b.json", some false⟩,
          ⟨"c.json", some false⟩] (State.init none)).2.schemaErrors =
      [("c.json", none), ("b.json", some (.validation "name: expected string")),
        ("a.json", none)] :=
  ⟨by decide,
    (hadError_iff_recorded_error ⟨false, false⟩ steadyEngine demoFS
      [⟨"data", some true⟩, ⟨"a.json", some false⟩, ⟨"b.json", some false⟩,
        ⟨"c.json", some false⟩] none).2.1 (by decide),
    by decide⟩

end SchemaValidator
